import Mathlib

/-!
Verification of the docker-registry mirror core: the lazy-import path
classifier (`ecrmirror.GetContent`'s inline regex), the ECR registry URL
classifier (`parseECRURL` / `isECRURL`), the ECR credential cache
(`ecrCredentials.Basic`), and the lazy importer (`ecrFetcher.GetContent`,
`pullAndImportFromECR`).  Go strings are modelled as `List Char`, byte
slices as `List Nat`, `time.Time` and `time.Duration` as `Int`
(nanoseconds); external library calls (`url.Parse`,
`base64.StdEncoding.DecodeString`, the ECR client, the wrapped storage
driver, the docker subprocesses) are modelled by their results, supplied
as explicit inputs.
-/

namespace DockerRegistry

/-- Strip the literal `mark` from the front of `s`; `some` of the rest on
success, `none` when `s` does not start with `mark`. -/
def dropMark : List Char → List Char → Option (List Char)
  | [], s => some s
  | _ :: _, [] => none
  | a :: m, b :: t => if a = b then dropMark m t else none

/-- Strip the literal `mark` from the end of `s`. -/
def dropTail (mark s : List Char) : Option (List Char) :=
  (dropMark mark.reverse s.reverse).map List.reverse

/-- `true` when `s` has no newline: Go's regexp `.` matches any character
except `\n`. -/
def noNL (s : List Char) : Bool := !s.contains '\n'

/-- Literal head of the miss-key regexp of `ecrFetcher.GetContent`:
`^/docker/registry/v2/repositories/`. -/
def repoRoot : List Char := "/docker/registry/v2/repositories/".toList

/-- Literal middle of the miss-key regexp: `/_manifests/tags/`. -/
def manifestsTags : List Char := "/_manifests/tags/".toList

/-- Literal tail of the miss-key regexp: `/current/link$`. -/
def currentLink : List Char := "/current/link".toList

/-- Backtracking search for the split of `t` into
`<repo>/_manifests/tags/<tag>/current/link`, trying the longest repository
capture first, exactly as the greedy `(.+)` of the Go regexp does.  `n`
bounds the length of the repository capture being tried. -/
def trySplit (t : List Char) : Nat → Option (List Char × List Char)
  | 0 => none
  | i + 1 =>
    match dropMark manifestsTags (t.drop (i + 1)) with
    | some u =>
      match dropTail currentLink u with
      | some b =>
        if noNL (t.take (i + 1)) && noNL b && !b.isEmpty then
          some (t.take (i + 1), b)
        else trySplit t i
      | none => trySplit t i
    | none => trySplit t i

/-- The miss-key match of `ecrFetcher.GetContent`: Go's
`regexp.MustCompile("^/docker/registry/v2/repositories/(.+)/_manifests/tags/(.+)/current/link$")`
applied with `FindStringSubmatch`, returning the two captures when the
whole key matches. -/
def matchImportKey (path : List Char) : Option (List Char × List Char) :=
  match dropMark repoRoot path with
  | none => none
  | some t => trySplit t t.length

/-- The shape the miss-key regexp recognises: the fixed prefix, a
nonempty newline-free repository, the fixed middle, a nonempty
newline-free tag, and the fixed suffix. -/
def importKeyShape (path a b : List Char) : Prop :=
  path = repoRoot ++ a ++ manifestsTags ++ b ++ currentLink ∧
  a ≠ [] ∧ b ≠ [] ∧ noNL a = true ∧ noNL b = true

theorem dropMark_some {m s u : List Char} : dropMark m s = some u ↔ s = m ++ u := by
  induction m generalizing s with
  | nil => simp [dropMark]
  | cons a m ih =>
    cases s with
    | nil => simp [dropMark]
    | cons b t =>
      by_cases hab : a = b
      · subst hab
        simp [dropMark, ih]
      · simp [dropMark, hab, Ne.symm hab]

theorem dropTail_some {m s u : List Char} : dropTail m s = some u ↔ s = u ++ m := by
  unfold dropTail
  rw [Option.map_eq_some']
  constructor
  · rintro ⟨v, hv, rfl⟩
    rw [dropMark_some] at hv
    have h2 := congrArg List.reverse hv
    simpa [List.reverse_append] using h2
  · rintro rfl
    refine ⟨u.reverse, ?_, by simp⟩
    rw [dropMark_some]
    simp [List.reverse_append]

theorem trySplit_some {t a b : List Char} :
    ∀ {n : Nat}, trySplit t n = some (a, b) →
      t = a ++ manifestsTags ++ b ++ currentLink ∧
      a ≠ [] ∧ b ≠ [] ∧ noNL a = true ∧ noNL b = true := by
  intro n
  induction n with
  | zero => intro h; exact absurd h (by simp [trySplit])
  | succ i ih =>
    intro h
    unfold trySplit at h
    split at h
    next u hm =>
      split at h
      next b' hu =>
        split at h
        next hc =>
          simp only [Option.some.injEq, Prod.mk.injEq] at h
          obtain ⟨rfl, rfl⟩ := h
          rw [dropMark_some] at hm
          rw [dropTail_some] at hu
          subst hu
          simp only [Bool.and_eq_true] at hc
          refine ⟨?_, ?_, ?_, hc.1.1, hc.1.2⟩
          · conv_lhs => rw [← List.take_append_drop (i + 1) t]
            rw [hm]
            simp
          · intro hnil
            have ht : t = [] := by
              rcases List.take_eq_nil_iff.mp hnil with h0 | h0
              · omega
              · exact h0
            rw [ht] at hm
            have hlen := congrArg List.length hm
            simp [manifestsTags] at hlen
          · simp only [Bool.not_eq_true'] at hc
            intro hb
            rw [hb] at hc
            simp [List.isEmpty] at hc
        next hc => exact ih h
      next hu => exact ih h
    next hm => exact ih h

theorem trySplit_isSome {t a b : List Char}
    (hshape : t = a ++ manifestsTags ++ b ++ currentLink)
    (ha : a ≠ []) (hb : b ≠ []) (hna : noNL a = true) (hnb : noNL b = true) :
    ∀ {n : Nat}, a.length ≤ n → (trySplit t n).isSome = true := by
  intro n
  induction n with
  | zero =>
    intro hle
    exact absurd (List.length_eq_zero.mp (Nat.le_zero.mp hle)) ha
  | succ i ih =>
    intro hle
    rcases Nat.lt_or_ge a.length (i + 1) with hlt | hge
    · have hstep : a.length ≤ i := Nat.lt_succ_iff.mp hlt
      unfold trySplit
      split
      next u hm =>
        split
        next b' hu =>
          split
          next hc => rfl
          next hc => exact ih hstep
        next hu => exact ih hstep
      next hm => exact ih hstep
    · have heq : a.length = i + 1 := Nat.le_antisymm hle hge
      have hdrop : t.drop (i + 1) = manifestsTags ++ (b ++ currentLink) := by
        rw [hshape, ← heq, List.append_assoc, List.append_assoc]
        exact List.drop_left a (manifestsTags ++ (b ++ currentLink))
      have htake : t.take (i + 1) = a := by
        rw [hshape, ← heq, List.append_assoc, List.append_assoc]
        exact List.take_left a (manifestsTags ++ (b ++ currentLink))
      have hbe : b.isEmpty = false := by
        cases b with
        | nil => exact absurd rfl hb
        | cons x xs => rfl
      unfold trySplit
      simp only [dropMark_some.mpr hdrop,
        (dropTail_some (m := currentLink) (s := b ++ currentLink) (u := b)).mpr rfl,
        htake, hna, hnb, hbe]
      simp

theorem matchImportKey_shape {path a b : List Char}
    (h : matchImportKey path = some (a, b)) : importKeyShape path a b := by
  unfold matchImportKey at h
  split at h
  next hm => exact absurd h (by simp)
  next t hm =>
    rw [dropMark_some] at hm
    obtain ⟨ht, ha, hb, hna, hnb⟩ := trySplit_some h
    refine ⟨?_, ha, hb, hna, hnb⟩
    rw [hm, ht]
    simp [List.append_assoc]

theorem matchImportKey_isSome_of_shape {path a b : List Char}
    (hs : importKeyShape path a b) : (matchImportKey path).isSome = true := by
  obtain ⟨hp, ha, hb, hna, hnb⟩ := hs
  unfold matchImportKey
  have hm : dropMark repoRoot path = some (a ++ manifestsTags ++ b ++ currentLink) := by
    rw [dropMark_some, hp]
    simp [List.append_assoc]
  rw [hm]
  apply trySplit_isSome rfl ha hb hna hnb
  simp

theorem takeWhile_append_cons {p : Char → Bool} {xs : List Char} {y : Char} {t : List Char}
    (h1 : ∀ x ∈ xs, p x = true) (h2 : p y = false) :
    (xs ++ y :: t).takeWhile p = xs ∧ (xs ++ y :: t).dropWhile p = y :: t := by
  induction xs with
  | nil => simp [List.takeWhile_cons, List.dropWhile_cons, h2]
  | cons x xs ih =>
    have hx : p x = true := h1 x (List.mem_cons_self x xs)
    have ih' := ih fun z hz => h1 z (List.mem_cons_of_mem x hz)
    simp [List.takeWhile_cons, List.dropWhile_cons, hx, ih'.1, ih'.2]

/-- Literal `.dkr.ecr.` between the two captures of `ecrURLPattern`. -/
def dkrEcr : List Char := ".dkr.ecr.".toList

/-- Literal `.amazonaws.com` tail of `ecrURLPattern`. -/
def amazonawsCom : List Char := ".amazonaws.com".toList

/-- Go's `ecrURLPattern = regexp.MustCompile` of
`^(\d+)\.dkr\.ecr\.([^.]+)\.amazonaws\.com$` applied to a host string,
returning the two captures on a match.  The account capture `\d+` is the
maximal leading digit run (the following literal is a dot, which no digit
is, so backtracking never shortens it) and the region capture `[^.]+` is
the maximal dot-free run before the literal tail. -/
def ecrHostMatch (host : List Char) : Option (List Char × List Char) :=
  if (host.takeWhile Char.isDigit).isEmpty then none else
  match dropMark dkrEcr (host.dropWhile Char.isDigit) with
  | none => none
  | some r2 =>
    if (r2.takeWhile (fun c => c != '.')).isEmpty then none
    else if r2.dropWhile (fun c => c != '.') = amazonawsCom then
      some (host.takeWhile Char.isDigit, r2.takeWhile (fun c => c != '.'))
    else none

/-- The host shape `ecrURLPattern` recognises:
`<digits>.dkr.ecr.<region>.amazonaws.com` with a nonempty all-digit
account and a nonempty dot-free region. -/
def ecrHostShape (host a r : List Char) : Prop :=
  host = a ++ dkrEcr ++ r ++ amazonawsCom ∧ a ≠ [] ∧ (∀ c ∈ a, c.isDigit = true) ∧
  r ≠ [] ∧ '.' ∉ r

theorem ecrHostMatch_some {host a r : List Char} :
    ecrHostMatch host = some (a, r) ↔ ecrHostShape host a r := by
  constructor
  · intro h
    unfold ecrHostMatch at h
    split at h
    next he => exact absurd h (by simp)
    next he =>
      split at h
      next hm => exact absurd h (by simp)
      next r2 hm =>
        split at h
        next hre => exact absurd h (by simp)
        next hre =>
          split at h
          next hr3 =>
            simp only [Option.some.injEq, Prod.mk.injEq] at h
            obtain ⟨rfl, rfl⟩ := h
            rw [dropMark_some] at hm
            refine ⟨?_, ?_, ?_, ?_, ?_⟩
            · conv_lhs => rw [← List.takeWhile_append_dropWhile Char.isDigit host]
              rw [hm]
              conv_lhs => rw [← List.takeWhile_append_dropWhile (fun c => c != '.') r2]
              rw [hr3]
              simp [List.append_assoc]
            · simpa using he
            · exact fun c hc => List.mem_takeWhile_imp hc
            · simpa using hre
            · intro hdot
              have hbad := List.mem_takeWhile_imp hdot
              simp at hbad
          next hr3 => exact absurd h (by simp)
  · rintro ⟨hp, ha, hd, hr, hdot⟩
    have hde : dkrEcr = '.' :: "dkr.ecr.".toList := rfl
    have ham : amazonawsCom = '.' :: "amazonaws.com".toList := rfl
    have hp' : host = a ++ '.' :: ("dkr.ecr.".toList ++ (r ++ amazonawsCom)) := by
      rw [hp, hde]
      simp [List.append_assoc]
    have h1 := takeWhile_append_cons (p := Char.isDigit) (y := '.')
      (t := "dkr.ecr.".toList ++ (r ++ amazonawsCom)) hd (by decide)
    have htw : host.takeWhile Char.isDigit = a := by rw [hp']; exact h1.1
    have hdw : host.dropWhile Char.isDigit =
        '.' :: ("dkr.ecr.".toList ++ (r ++ amazonawsCom)) := by rw [hp']; exact h1.2
    have hdm : dropMark dkrEcr (host.dropWhile Char.isDigit) = some (r ++ amazonawsCom) := by
      rw [hdw, dropMark_some, hde]
      simp
    have hrd : ∀ c ∈ r, (c != '.') = true := by
      intro c hc
      rw [bne_iff_ne]
      rintro rfl
      exact hdot hc
    have h2 := takeWhile_append_cons (p := fun c => c != '.') (y := '.')
      (t := "amazonaws.com".toList) hrd (by decide)
    have hr2tw : (r ++ amazonawsCom).takeWhile (fun c => c != '.') = r := by
      rw [ham]; exact h2.1
    have hr2dw : (r ++ amazonawsCom).dropWhile (fun c => c != '.') = amazonawsCom := by
      rw [ham]; exact h2.2
    have hae : (host.takeWhile Char.isDigit).isEmpty = false := by
      rw [htw]
      cases a with
      | nil => exact absurd rfl ha
      | cons x xs => rfl
    have hre : ((r ++ amazonawsCom).takeWhile (fun c => c != '.')).isEmpty = false := by
      rw [hr2tw]
      cases r with
      | nil => exact absurd rfl hr
      | cons x xs => rfl
    unfold ecrHostMatch
    rw [hdm]
    simp [hae, hre, hr2tw, hr2dw, htw]
    exact ⟨ha, hr⟩

/-- `isECRURL` of the source, as a function of the result of the external
`url.Parse` call it makes (`.error` models a parse failure, `.ok` carries
the parsed host): whether the host matches `ecrURLPattern`; parse
failures return `false`, never an error. -/
def isECRURL (parsedHost : Except (List Char) (List Char)) : Bool :=
  match parsedHost with
  | .error _ => false
  | .ok h => (ecrHostMatch h).isSome

/-- `parseECRURL` of the source, as a function of the same `url.Parse`
result: the (accountID, region) captures of `ecrURLPattern` on the host,
or an error when the URL fails to parse or the host does not match. -/
def parseECRURL (parsedHost : Except (List Char) (List Char)) :
    Except (List Char) (List Char × List Char) :=
  match parsedHost with
  | .error e => .error ("invalid registry URL: ".toList ++ e)
  | .ok h =>
    match ecrHostMatch h with
    | some p => .ok p
    | none => .error ("URL does not match ECR registry pattern: ".toList ++ h)

/-- C8: for every URL-parse outcome, `isECRURL` is true iff the URL
parses and its host matches the `<digits>.dkr.ecr.<region>.amazonaws.com`
pattern (parse failures give `false`, never an error); for a parsed
host, `parseECRURL` returns exactly the (accountID, region) captures
when the host matches that pattern and an error otherwise; and the two
agree: `isECRURL` is true exactly when `parseECRURL` succeeds. -/
theorem isECRURL_parseECRURL_agree (pr : Except (List Char) (List Char)) :
    (isECRURL pr = true ↔ ∃ h a r, pr = Except.ok h ∧ ecrHostShape h a r) ∧
    (∀ h a r, pr = Except.ok h →
      (parseECRURL pr = Except.ok (a, r) ↔ ecrHostShape h a r)) ∧
    (isECRURL pr = true ↔ ∃ p, parseECRURL pr = Except.ok p) := by
  cases pr with
  | error e =>
    refine ⟨?_, ?_, ?_⟩
    · simp [isECRURL]
    · intro h a r hok
      exact absurd hok (by simp)
    · simp [isECRURL, parseECRURL]
  | ok h =>
    cases hm : ecrHostMatch h with
    | none =>
      refine ⟨?_, ?_, ?_⟩
      · simp only [isECRURL, hm]
        constructor
        · intro hfalse
          simp at hfalse
        · rintro ⟨h', a, r, hok, hs⟩
          obtain rfl : h' = h := by injection hok with h0; exact h0.symm
          rw [← ecrHostMatch_some] at hs
          rw [hm] at hs
          exact absurd hs (by simp)
      · intro h' a r hok
        obtain rfl : h' = h := by injection hok with h0; exact h0.symm
        simp only [parseECRURL, hm]
        constructor
        · intro hbad
          simp at hbad
        · intro hs
          rw [← ecrHostMatch_some] at hs
          rw [hm] at hs
          exact absurd hs (by simp)
      · simp [isECRURL, parseECRURL, hm]
    | some q =>
      obtain ⟨a0, r0⟩ := q
      have hs0 := ecrHostMatch_some.mp hm
      refine ⟨?_, ?_, ?_⟩
      · simp only [isECRURL, hm]
        exact ⟨fun _ => ⟨h, a0, r0, rfl, hs0⟩, fun _ => rfl⟩
      · intro h' a r hok
        obtain rfl : h' = h := by injection hok with h0; exact h0.symm
        simp only [parseECRURL, hm]
        constructor
        · intro hocc
          simp only [Except.ok.injEq, Prod.mk.injEq] at hocc
          rw [← hocc.1, ← hocc.2]
          exact hs0
        · intro hs
          have hq := ecrHostMatch_some.mpr hs
          rw [hm] at hq
          simp only [Option.some.injEq, Prod.mk.injEq] at hq
          rw [hq.1, hq.2]
      · simp [isECRURL, parseECRURL, hm]

/-- The fields of a Go `ecrCredentials` value (the `sync.Mutex` is
modelled by treating each `Basic` call as one atomic step; the `client`
field is modelled by the exchange result carried in `BasicEnv`). -/
structure EcrCredentials where
  registryID : List Char
  lifetime : Option Int
  username : List Char
  password : List Char
  expiry : Int
deriving DecidableEq

/-- One entry of the ECR `GetAuthorizationToken` response
(`AuthorizationData[0]`), with the pointer fields already dereferenced
the way `aws.StringValue` / `aws.TimeValue` do. -/
structure AuthData where
  authorizationToken : List Char
  expiresAt : Int
deriving DecidableEq

/-- The external world one `Basic` call sees: the clock (`time.Now()`),
the result the `GetAuthorizationToken` call would produce, and the
behaviour of `base64.StdEncoding.DecodeString` on token strings. -/
structure BasicEnv where
  now : Int
  exchange : Except (List Char) (List AuthData)
  decode : List Char → Except (List Char) (List Char)

/-- `strings.SplitN(string(decoded), ":", 2)`: `some (before, after)` at
the first colon; `none` when there is no colon, in which case `SplitN`
returns a single part and the source's `len(parts) != 2` check fires. -/
def splitFirstColon : List Char → Option (List Char × List Char)
  | [] => none
  | c :: rest =>
    if c = ':' then some ([], rest)
    else
      match splitFirstColon rest with
      | some (a, b) => some (c :: a, b)
      | none => none

/-- `time.Hour` in nanoseconds. -/
def hourDur : Int := 3600000000000

/-- The validity test at the top of `Basic`:
`c.username != "" && c.password != "" && (c.lifetime == nil || now.Before(c.expiry))`. -/
def validCred (c : EcrCredentials) (now : Int) : Bool :=
  !c.username.isEmpty && !c.password.isEmpty &&
    (c.lifetime.isNone || decide (now < c.expiry))

/-- What one `Basic` call produces: the returned pair, the credential
state after the call, and whether the external token exchange was
invoked during the call. -/
structure BasicResult where
  username : List Char
  password : List Char
  state : EcrCredentials
  exchanged : Bool
deriving DecidableEq

/-- `ecrCredentials.Basic`: the whole body runs under the mutex, so one
call is one atomic step from credential state to credential state. -/
def Basic (c : EcrCredentials) (env : BasicEnv) : BasicResult :=
  if validCred c env.now then ⟨c.username, c.password, c, false⟩
  else
    match env.exchange with
    | .error _ => ⟨[], [], c, true⟩
    | .ok [] => ⟨[], [], c, true⟩
    | .ok (authData :: _) =>
      match env.decode authData.authorizationToken with
      | .error _ => ⟨[], [], c, true⟩
      | .ok decoded =>
        match splitFirstColon decoded with
        | none => ⟨[], [], c, true⟩
        | some (u, p) =>
          ⟨u, p,
            { c with
              username := u, password := p,
              expiry :=
                match c.lifetime with
                | some l => if 0 < l then env.now + l else authData.expiresAt - hourDur
                | none => authData.expiresAt - hourDur },
            true⟩

/-- N callers serialized by the mutex: each `Basic` call runs atomically
on the state the previous call left behind. -/
def runBasicSeq (c : EcrCredentials) : List BasicEnv → List BasicResult
  | [] => []
  | e :: rest =>
    let r := Basic c e
    r :: runBasicSeq r.state rest

/-- How many calls of a serialized sequence issued a token exchange. -/
def exchangeCount (rs : List BasicResult) : Nat :=
  (rs.filter (fun r => r.exchanged)).length

/-- The four failure points of a refresh inside `Basic`: the exchange
call errors, the response has no authorization data, the token fails to
base64-decode, or the decoded token does not split into two parts. -/
def refreshFails (env : BasicEnv) : Prop :=
  (∃ e, env.exchange = .error e) ∨
  env.exchange = .ok [] ∨
  (∃ d rest e, env.exchange = .ok (d :: rest) ∧
    env.decode d.authorizationToken = .error e) ∨
  (∃ d rest dec, env.exchange = .ok (d :: rest) ∧
    env.decode d.authorizationToken = .ok dec ∧ splitFirstColon dec = none)

theorem Basic_valid {c : EcrCredentials} {env : BasicEnv}
    (h : validCred c env.now = true) :
    Basic c env = ⟨c.username, c.password, c, false⟩ := by
  unfold Basic
  rw [if_pos h]

theorem Basic_failed {c : EcrCredentials} {env : BasicEnv}
    (hv : validCred c env.now = false) (hf : refreshFails env) :
    Basic c env = ⟨[], [], c, true⟩ := by
  rcases hf with ⟨e, he⟩ | he | ⟨d, rest, e, he, hd⟩ | ⟨d, rest, dec, he, hd, hs⟩
  · simp [Basic, hv, he]
  · simp [Basic, hv, he]
  · simp [Basic, hv, he, hd]
  · simp [Basic, hv, he, hd, hs]

theorem Basic_refresh {c : EcrCredentials} {env : BasicEnv} {d : AuthData}
    {rest : List AuthData} {dec u p : List Char}
    (hv : validCred c env.now = false)
    (he : env.exchange = .ok (d :: rest))
    (hd : env.decode d.authorizationToken = .ok dec)
    (hs : splitFirstColon dec = some (u, p)) :
    Basic c env = ⟨u, p,
      { c with
        username := u, password := p,
        expiry :=
          match c.lifetime with
          | some l => if 0 < l then env.now + l else d.expiresAt - hourDur
          | none => d.expiresAt - hourDur },
      true⟩ := by
  simp [Basic, hv, he, hd, hs]

theorem splitFirstColon_append {u p : List Char} (h : ':' ∉ u) :
    splitFirstColon (u ++ ':' :: p) = some (u, p) := by
  induction u with
  | nil => simp [splitFirstColon]
  | cons c cs ih =>
    have hc : ¬c = ':' := by
      rintro rfl
      exact h (List.mem_cons_self _ _)
    have ih' := ih fun hm => h (List.mem_cons_of_mem c hm)
    simp [splitFirstColon, hc, ih']

/-- One externally observable action of `ecrFetcher.GetContent`: a call
to the wrapped driver's `GetContent`, or one of the three docker
subprocesses run by `pullAndImportFromECR`. -/
inductive FetchEv
  | storeGet
  | dockerPull (image : List Char)
  | dockerTag (image newImage : List Char)
  | dockerPush (image : List Char)
deriving DecidableEq

/-- The external world one `GetContent` request sees: the result of the
first wrapped-store read, the result the retried read would produce,
and the exit outcome of each docker subprocess by image argument. -/
structure FetchEnv where
  storeRes1 : Except (List Char) (List Nat)
  storeRes2 : Except (List Char) (List Nat)
  pullRes : List Char → Except (List Char) Unit
  tagRes : List Char → List Char → Except (List Char) Unit
  pushRes : List Char → Except (List Char) Unit

/-- `fmt.Sprintf` of `%s/%s:%s` applied to a host, repository and tag. -/
def imageRef (host repo tg : List Char) : List Char :=
  host ++ "/".toList ++ repo ++ ":".toList ++ tg

/-- `ecrFetcher.pullAndImportFromECR`: pull the remote image, tag it for
the local registry, push it; each sub-step is a single attempt and the
first failure aborts, returning the sub-step's error unwrapped.  Also
returns the docker commands actually run, in order. -/
def pullAndImportFromECR (remote localReg : List Char) (env : FetchEnv)
    (repo tg : List Char) : Except (List Char) Unit × List FetchEv :=
  let fullImage := imageRef remote repo tg
  match env.pullRes fullImage with
  | .error e => (.error e, [.dockerPull fullImage])
  | .ok _ =>
    let localTag := imageRef localReg repo tg
    match env.tagRes fullImage localTag with
    | .error e => (.error e, [.dockerPull fullImage, .dockerTag fullImage localTag])
    | .ok _ =>
      match env.pushRes localTag with
      | .error e =>
          (.error e,
           [.dockerPull fullImage, .dockerTag fullImage localTag, .dockerPush localTag])
      | .ok _ =>
          (.ok (),
           [.dockerPull fullImage, .dockerTag fullImage localTag, .dockerPush localTag])

/-- `ecrFetcher.GetContent`: delegate to the wrapped store; on any error
from it, match the miss-key regex, fail with `invalid path` on a
non-match, otherwise import and re-read once.  Returns the final outcome
paired with every external action taken, in order. -/
def GetContent (remote localReg : List Char) (env : FetchEnv) (path : List Char) :
    Except (List Char) (List Nat) × List FetchEv :=
  match env.storeRes1 with
  | .ok out => (.ok out, [.storeGet])
  | .error _ =>
    match matchImportKey path with
    | none => (.error ("invalid path: ".toList ++ path), [.storeGet])
    | some (repo, tg) =>
      match pullAndImportFromECR remote localReg env repo tg with
      | (.error e, evs) =>
          (.error ("failed to pull from ECR: ".toList ++ e), .storeGet :: evs)
      | (.ok _, evs) => (env.storeRes2, .storeGet :: evs ++ [.storeGet])

/-- `startsList hay needle`: does `needle` sit at the front of `hay`? -/
def startsList : List Char → List Char → Bool
  | _, [] => true
  | [], _ :: _ => false
  | a :: hs, b :: ns => a == b && startsList hs ns

/-- Whether `needle` occurs contiguously anywhere inside `hay`. -/
def hasSub : List Char → List Char → Bool
  | [], needle => needle.isEmpty
  | a :: hs, needle => startsList (a :: hs) needle || hasSub hs needle

theorem runBasicSeq_valid (c : EcrCredentials) :
    ∀ envs : List BasicEnv, (∀ e ∈ envs, validCred c e.now = true) →
      runBasicSeq c envs = envs.map (fun _ => ⟨c.username, c.password, c, false⟩) := by
  intro envs
  induction envs with
  | nil => intro _; rfl
  | cons e rest ih =>
    intro h
    have h1 := Basic_valid (h e (List.mem_cons_self _ _))
    simp only [runBasicSeq, h1, List.map_cons, List.cons.injEq, true_and]
    exact ih fun e' he' => h e' (List.mem_cons_of_mem _ he')

theorem exchangeCount_eq_zero {rs : List BasicResult}
    (h : ∀ r ∈ rs, r.exchanged = false) : exchangeCount rs = 0 := by
  unfold exchangeCount
  rw [List.length_eq_zero, List.filter_eq_nil_iff]
  intro r hr
  simp [h r hr]

theorem exchangeCount_cons_true {r : BasicResult} {rs : List BasicResult}
    (h : r.exchanged = true) : exchangeCount (r :: rs) = exchangeCount rs + 1 := by
  unfold exchangeCount
  simp [List.filter_cons, h]

/-- A cached credential with no override lifetime whose stored expiry
(0) lies in the past relative to the call time used below. -/
def staleNilLifetime : EcrCredentials :=
  ⟨[], none, "AWS".toList, "pw".toList, 0⟩

/-- A call environment at time 100 whose exchange call would fail loudly
were it ever made. -/
def envAt100 : BasicEnv :=
  ⟨100, .error "exchange called".toList, fun _ => .error []⟩

/-- C1 (code bug): the validity check of `Basic` short-circuits on a nil
override lifetime, so a non-empty cached credential whose expiry has
passed is returned from cache and no token exchange occurs — against the
claim (and the source's own `Default: refresh 1 hour before actual
expiry` comment, whose stored expiry is never consulted when no override
lifetime is configured). -/
theorem basic_expired_nil_lifetime_no_exchange :
    staleNilLifetime.lifetime = none ∧
    staleNilLifetime.expiry ≤ envAt100.now ∧
    Basic staleNilLifetime envAt100 =
      ⟨"AWS".toList, "pw".toList, staleNilLifetime, false⟩ :=
  ⟨rfl, by decide, by decide⟩

/-- C2 counterexample: a key whose tag segment contains `/` is matched,
with captures repository `r` and tag `a/b`, where the claim says every
key whose tag segment contains `/` yields none. -/
theorem matchImportKey_slash_tag_matches :
    matchImportKey
      "/docker/registry/v2/repositories/r/_manifests/tags/a/b/current/link".toList =
      some ("r".toList, "a/b".toList) := by decide

/-- C2 (amended): `matchImportKey` yields a (repository, tag) match
exactly when the key is
`/docker/registry/v2/repositories/<repository>/_manifests/tags/<tag>/current/link`
with `<repository>` and `<tag>` nonempty and newline-free; the tag
capture, like the repository capture, may contain `/`.  Every other
string, including truncated or extended variants of that shape, yields
none. -/
theorem matchImportKey_matches_iff_shape (path : List Char) :
    (matchImportKey path).isSome = true ↔ ∃ a b, importKeyShape path a b := by
  constructor
  · intro h
    obtain ⟨q, hq⟩ := Option.isSome_iff_exists.mp h
    obtain ⟨a, b⟩ := q
    exact ⟨a, b, matchImportKey_shape hq⟩
  · rintro ⟨a, b, hs⟩
    exact matchImportKey_isSome_of_shape hs

/-- A concrete fetch environment whose wrapped-store read fails and
whose docker pull fails with `exit status 1`. -/
def fetchEnvA : FetchEnv :=
  ⟨.error "not found".toList, .error "still missing".toList,
   fun _ => .error "exit status 1".toList, fun _ _ => .ok (), fun _ => .ok ()⟩

/-- C3 counterexample: store read fails, the path matches (repository
`r`, tag `t`), and the docker pull fails with `exit status 1`; the
caller's error is `failed to pull from ECR: exit status 1`, and the
image reference `h/r:t` being pulled does not occur in it — the error
does not name the image. -/
theorem getContent_pull_error_lacks_image :
    (GetContent "h".toList "l".toList fetchEnvA
      "/docker/registry/v2/repositories/r/_manifests/tags/t/current/link".toList).1 =
      .error "failed to pull from ECR: exit status 1".toList ∧
    hasSub "failed to pull from ECR: exit status 1".toList
      (imageRef "h".toList "r".toList "t".toList) = false :=
  ⟨rfl, by decide⟩

/-- C3 (amended): when the wrapped store's get fails, the path matches
the miss-key shape, and the pull sub-step fails, the caller receives the
pull error wrapped as `failed to pull from ECR: <error>` (the image
reference appears only in the log output, not in the error), the wrapped
store's get is not retried, and the tag and push sub-steps are not
attempted. -/
theorem getContent_pull_failure_wrapped (remote localReg : List Char)
    (env : FetchEnv) (path e ep repo tg : List Char)
    (hs : env.storeRes1 = .error e)
    (hm : matchImportKey path = some (repo, tg))
    (hp : env.pullRes (imageRef remote repo tg) = .error ep) :
    GetContent remote localReg env path =
      (.error ("failed to pull from ECR: ".toList ++ ep),
       [.storeGet, .dockerPull (imageRef remote repo tg)]) := by
  simp [GetContent, pullAndImportFromECR, hs, hm, hp]

/-- C3 witness: the amended statement at the concrete inputs of the
counterexample. -/
theorem getContent_pull_failure_wrapped_witness :
    GetContent "h".toList "l".toList fetchEnvA
      "/docker/registry/v2/repositories/r/_manifests/tags/t/current/link".toList =
      (.error "failed to pull from ECR: exit status 1".toList,
       [.storeGet, .dockerPull "h/r:t".toList]) :=
  getContent_pull_failure_wrapped "h".toList "l".toList fetchEnvA
    "/docker/registry/v2/repositories/r/_manifests/tags/t/current/link".toList
    "not found".toList "exit status 1".toList "r".toList "t".toList
    rfl (by decide) rfl

/-- A stale credential configured with a zero override lifetime. -/
def staleZeroLifetime : EcrCredentials := ⟨[], some 0, [], [], 0⟩

/-- An exchange environment at time 1000 that succeeds with a token
decoding to `u:p` and a stated expiry of 7200000000000 ns (2h). -/
def envZeroLifetime : BasicEnv :=
  ⟨1000, .ok [⟨"tok".toList, 7200000000000⟩], fun _ => .ok "u:p".toList⟩

/-- C4 counterexample: with an override lifetime configured as 0, the
refresh stores expiry = stated − 1h = 3600000000000, not now + override
= 1000: the claimed rule fails for a configured zero override. -/
theorem basic_zero_override_expiry_cex :
    staleZeroLifetime.lifetime = some 0 ∧
    (Basic staleZeroLifetime envZeroLifetime).state.expiry = 3600000000000 ∧
    (Basic staleZeroLifetime envZeroLifetime).state.expiry ≠
      envZeroLifetime.now + 0 :=
  ⟨rfl, by decide, by decide⟩

/-- C4 (amended): on a successful refresh, if an override lifetime is
configured with a positive duration, the new expiry is now + override;
otherwise — no override configured, or an override configured with a
zero or negative duration — the new expiry is the token's stated expiry
minus one hour. -/
theorem basic_expiry_rule (c : EcrCredentials) (env : BasicEnv)
    (d : AuthData) (rest : List AuthData) (dec u p : List Char)
    (hv : validCred c env.now = false)
    (he : env.exchange = .ok (d :: rest))
    (hd : env.decode d.authorizationToken = .ok dec)
    (hs : splitFirstColon dec = some (u, p)) :
    (∀ l : Int, c.lifetime = some l → 0 < l →
      (Basic c env).state.expiry = env.now + l) ∧
    (∀ l : Int, c.lifetime = some l → l ≤ 0 →
      (Basic c env).state.expiry = d.expiresAt - hourDur) ∧
    (c.lifetime = none →
      (Basic c env).state.expiry = d.expiresAt - hourDur) := by
  rw [Basic_refresh hv he hd hs]
  refine ⟨?_, ?_, ?_⟩
  · intro l hl hpos
    simp [hl, hpos]
  · intro l hl hneg
    have hnp : ¬(0 < l) := by omega
    simp [hl, hnp]
  · intro hl
    simp [hl]

/-- C4 witness: the zero-override branch at the concrete inputs of the
counterexample, giving expiry = stated − 1h. -/
theorem basic_expiry_rule_witness :
    (Basic staleZeroLifetime envZeroLifetime).state.expiry =
      (7200000000000 : Int) - hourDur :=
  (basic_expiry_rule staleZeroLifetime envZeroLifetime ⟨"tok".toList, 7200000000000⟩
      [] "u:p".toList "u".toList "p".toList rfl rfl rfl (by decide)).2.1 0 rfl
    (by decide)

/-- C5: every refresh attempt that fails — exchange call error, empty
authorization data, base64 decode failure, or a token that does not
split into two parts — makes `Basic` return the empty credential pair;
the call returns a pair rather than an error, so no error reaches the
caller. -/
theorem basic_failed_refresh_returns_empty (c : EcrCredentials) (env : BasicEnv)
    (hv : validCred c env.now = false) (hf : refreshFails env) :
    (Basic c env).username = [] ∧ (Basic c env).password = [] := by
  rw [Basic_failed hv hf]
  exact ⟨rfl, rfl⟩

/-- An entirely empty (hence invalid) credential state. -/
def staleEmpty : EcrCredentials := ⟨[], none, [], [], 0⟩

/-- An environment whose exchange call errors. -/
def envExchangeErr : BasicEnv := ⟨5, .error "boom".toList, fun _ => .error []⟩

/-- C5 witness: a failing exchange call returns the empty pair. -/
theorem basic_failed_refresh_returns_empty_witness :
    (Basic staleEmpty envExchangeErr).username = [] ∧
    (Basic staleEmpty envExchangeErr).password = [] :=
  basic_failed_refresh_returns_empty staleEmpty envExchangeErr rfl
    (Or.inl ⟨"boom".toList, rfl⟩)

/-- An environment at time 7 whose exchange succeeds with a token that
decodes to `AWS:secretpass:with:colons`. -/
def envColonToken : BasicEnv :=
  ⟨7, .ok [⟨"tok".toList, 99⟩], fun _ => .ok "AWS:secretpass:with:colons".toList⟩

/-- C6: the mutex serializes the callers; when N callers all arrive with
a stale credential, the first performs the single token exchange and
stores the fresh pair, and every later caller finds the stored
credential valid and returns it from cache without exchanging: the
exchange count over the whole sequence is exactly one. -/
theorem basic_single_exchange_under_contention (c : EcrCredentials)
    (e : BasicEnv) (rest : List BasicEnv) (d : AuthData)
    (others : List AuthData) (dec u p : List Char)
    (hv : validCred c e.now = false)
    (he : e.exchange = .ok (d :: others))
    (hd : e.decode d.authorizationToken = .ok dec)
    (hs : splitFirstColon dec = some (u, p))
    (hrest : ∀ e' ∈ rest, validCred (Basic c e).state e'.now = true) :
    exchangeCount (runBasicSeq c (e :: rest)) = 1 ∧
    ∀ r ∈ runBasicSeq (Basic c e).state rest,
      r.username = u ∧ r.password = p ∧ r.exchanged = false := by
  have hrefresh := Basic_refresh hv he hd hs
  have hu1 : (Basic c e).state.username = u := by rw [hrefresh]
  have hp1 : (Basic c e).state.password = p := by rw [hrefresh]
  have hex : (Basic c e).exchanged = true := by rw [hrefresh]
  have hseq := runBasicSeq_valid (Basic c e).state rest hrest
  constructor
  · have hall : ∀ r ∈ runBasicSeq (Basic c e).state rest, r.exchanged = false := by
      rw [hseq]
      intro r hr
      obtain ⟨e', he', rfl⟩ := List.mem_map.mp hr
      rfl
    have hstep : runBasicSeq c (e :: rest) =
        Basic c e :: runBasicSeq (Basic c e).state rest := rfl
    rw [hstep, exchangeCount_cons_true hex, exchangeCount_eq_zero hall]
  · intro r hr
    rw [hseq] at hr
    obtain ⟨e', he', rfl⟩ := List.mem_map.mp hr
    exact ⟨hu1, hp1, rfl⟩

/-- A later caller at time 8; its exchange result would be an error, so
any second exchange would be visible in the result. -/
def envAfterA : BasicEnv := ⟨8, .error "would fail".toList, fun _ => .error []⟩

/-- A later caller at time 9, same shape as `envAfterA`. -/
def envAfterB : BasicEnv := ⟨9, .error "would fail".toList, fun _ => .error []⟩

/-- C6 witness: three serialized callers, stale start, first exchange
succeeds: the exchange count is one. -/
theorem basic_single_exchange_under_contention_witness :
    exchangeCount (runBasicSeq staleEmpty [envColonToken, envAfterA, envAfterB]) = 1 :=
  (basic_single_exchange_under_contention staleEmpty envColonToken
    [envAfterA, envAfterB] ⟨"tok".toList, 99⟩ [] "AWS:secretpass:with:colons".toList
    "AWS".toList "secretpass:with:colons".toList rfl rfl rfl (by decide)
    (by decide)).1

/-- C7: when the wrapped store's get fails with any error and the path
does not match the miss-key shape, `GetContent` fails with an
`invalid path` error naming the path, the store is read exactly once,
and no pull, tag or push is attempted. -/
theorem getContent_invalid_path (remote localReg : List Char) (env : FetchEnv)
    (path e : List Char)
    (hs : env.storeRes1 = .error e)
    (hm : matchImportKey path = none) :
    GetContent remote localReg env path =
      (.error ("invalid path: ".toList ++ path), [.storeGet]) := by
  simp [GetContent, hs, hm]

/-- C7 witness: a failing store read with the non-matching path `/x`. -/
theorem getContent_invalid_path_witness :
    GetContent "h".toList "l".toList fetchEnvA "/x".toList =
      (.error "invalid path: /x".toList, [.storeGet]) :=
  getContent_invalid_path "h".toList "l".toList fetchEnvA "/x".toList
    "not found".toList rfl (by decide)

/-- C9: a successfully decoded token is split on the first colon only:
when the decoded bytes are `<u>:<p>` with `<u>` colon-free, the returned
username is `<u>` and the returned password is the entire remainder,
colons included. -/
theorem basic_splits_on_first_colon (c : EcrCredentials) (env : BasicEnv)
    (d : AuthData) (rest : List AuthData) (u p : List Char)
    (hv : validCred c env.now = false)
    (he : env.exchange = .ok (d :: rest))
    (hd : env.decode d.authorizationToken = .ok (u ++ ':' :: p))
    (hu : ':' ∉ u) :
    (Basic c env).username = u ∧ (Basic c env).password = p := by
  rw [Basic_refresh hv he hd (splitFirstColon_append hu)]
  exact ⟨rfl, rfl⟩

/-- C9 witness: a token decoding to `AWS:secretpass:with:colons` yields
username `AWS` and password `secretpass:with:colons`. -/
theorem basic_splits_on_first_colon_witness :
    (Basic staleEmpty envColonToken).username = "AWS".toList ∧
    (Basic staleEmpty envColonToken).password = "secretpass:with:colons".toList :=
  basic_splits_on_first_colon staleEmpty envColonToken ⟨"tok".toList, 99⟩ []
    "AWS".toList "secretpass:with:colons".toList rfl rfl rfl (by decide)

/-- C10: a refresh that fails at any of the four failure points returns
before any mutation of the cached state: the stored username, password
and expiry are exactly as they were before the call. -/
theorem basic_failed_refresh_preserves_state (c : EcrCredentials) (env : BasicEnv)
    (hv : validCred c env.now = false) (hf : refreshFails env) :
    (Basic c env).state = c := by
  rw [Basic_failed hv hf]

/-- A previously cached, now stale, credential with an override
lifetime. -/
def staleCached : EcrCredentials := ⟨[], some 10, "AWS".toList, "old".toList, 3⟩

/-- An environment whose exchange succeeds but whose base64 decode
fails. -/
def envDecodeFail : BasicEnv :=
  ⟨5, .ok [⟨"tok".toList, 99⟩], fun _ => .error "bad b64".toList⟩

/-- C10 witness: a decode failure leaves the previously cached stale
credential untouched. -/
theorem basic_failed_refresh_preserves_state_witness :
    (Basic staleCached envDecodeFail).state = staleCached :=
  basic_failed_refresh_preserves_state staleCached envDecodeFail (by decide)
    (Or.inr (Or.inr (Or.inl ⟨⟨"tok".toList, 99⟩, [], "bad b64".toList, rfl, rfl⟩)))

end DockerRegistry
